import Mathlib

/-!
Shallow embedding of the course-search engine in `src/basic/SearchDialog.tsx`:
catalog loading/merging (`fetchAllLectures`), the six-stage filter chain
(`filteredLectures`), pagination (`lastPage` / `visibleLectures` / the
IntersectionObserver `advance` step), the debounce utility, and the schedule
exporter (`addSchedule`).

The schedule parser (`parseSchedule`, imported from `utils.ts`, which is not
part of the provided sources) is treated as the spec treats it: an arbitrary
pure function `parse : String → List ScheduleSlot`, over which all statements
are universally quantified.

Machine integers do not occur: page numbers, grades, slot ids and times are
small naturals in the source (no overflow is reachable), so they are embedded
as `Nat`.
-/

set_option maxRecDepth 8000

namespace SearchDialog

/-- A course record, mirroring the `Lecture` type consumed by
`SearchDialog.tsx` (fields: id, title, grade, credits, major, schedule). -/
structure Lecture where
  id : String
  title : String
  grade : Nat
  credits : String
  major : String
  schedule : String
deriving DecidableEq, Repr

/-- One parsed meeting slot: a weekday label and a range of slot ids,
the shape produced by `parseSchedule`. -/
structure ScheduleSlot where
  day : String
  range : List Nat
deriving DecidableEq, Repr

/-- `PAGE_SIZE` constant from the source. -/
def PAGE_SIZE : Nat := 100

/-! ## Catalog loader: merge and dedupe (`fetchAllLectures`, lines 104-107)

`new Map(allLectures.map(l => [l.id, l]))` inserts in list order; a repeated
key keeps its first-insertion position but its value is overwritten by the
later record.  `Array.from(map.values())` then yields the values in that
order.  `upsert` reproduces one `Map.set` step on an ordered key-value list
(the values carry their keys). -/

/-- One `Map.set` step: replace the first record with the same id in place,
or append at the end when the id is new. -/
def upsert (acc : List Lecture) (l : Lecture) : List Lecture :=
  match acc with
  | [] => [l]
  | x :: xs => if x.id = l.id then l :: xs else x :: upsert xs l

/-- `fetchAllLectures`'s merge: concatenate partition A then partition B and
deduplicate by id via JS `Map` insertion semantics (lines 104-107). -/
def mergeLectures (a b : List Lecture) : List Lecture :=
  (a ++ b).foldl upsert []

/-- `fetchAllLectures` (lines 93-112): both fetches are awaited together
(`Promise.all`); if either fails the `catch` branch returns `[]`, otherwise
the merged, deduplicated list is returned. -/
def fetchAllLectures (ra rb : Except String (List Lecture)) : List Lecture :=
  match ra, rb with
  | Except.ok a, Except.ok b => mergeLectures a b
  | _, _ => []

/-! ## Pagination (lines 121, 161-163, 221-228) -/

/-- `lastPage = Math.ceil(filteredLectures.length / PAGE_SIZE)` (line 161);
for naturals `Math.ceil (n / 100) = (n + 99) / 100`. -/
def lastPage (l : List Lecture) : Nat :=
  (l.length + (PAGE_SIZE - 1)) / PAGE_SIZE

/-- `visibleLectures = filteredLectures.slice(0, page * PAGE_SIZE)`
(line 163). -/
def visibleLectures (l : List Lecture) (page : Nat) : List Lecture :=
  l.take (page * PAGE_SIZE)

/-- The IntersectionObserver callback's page step (line 224):
`setPage(prev => Math.min(lastPage, prev + 1))`. -/
def advance (lp page : Nat) : Nat :=
  min lp (page + 1)

/-- The operations that write the `page` state: the debounced criteria commit
(line 170) and the `searchInfo` context reset (line 241) both run
`setPage(1)`; the observer callback runs the `advance` step with the current
`lastPage`. -/
inductive PageOp where
  | commitChange : PageOp
  | contextReset : PageOp
  | advancePage : Nat → PageOp
deriving DecidableEq, Repr

/-- Effect of one page-writing operation on the `page` state. -/
def pageStep (p : Nat) : PageOp → Nat
  | PageOp.commitChange => 1
  | PageOp.contextReset => 1
  | PageOp.advancePage lp => advance lp p

/-- The `page` state reached from the initial `useState(1)` (line 121) after
a sequence of page-writing operations. -/
def runPage (ops : List PageOp) : Nat :=
  ops.foldl pageStep 1

/-- A page-writing operation that cannot push the page below 1: any commit
or context reset, and an `advance` whose captured `lastPage` is ≥ 1. -/
def pageOpSafe : PageOp → Bool
  | PageOp.commitChange => true
  | PageOp.contextReset => true
  | PageOp.advancePage lp => 1 ≤ lp

/-! ## Filter engine (`filteredLectures`, lines 132-158) -/

/-- JS `String.prototype.toLowerCase` restricted to the per-character
lowering actually exercised by the source's ASCII ids and titles. -/
def toLowerStr (s : String) : String :=
  String.mk (s.data.map Char.toLower)

/-- `haystack` starts with `needle`, on character lists. -/
def startsWithList : List Char → List Char → Bool
  | _, [] => true
  | [], _ :: _ => false
  | a :: as, b :: bs => a == b && startsWithList as bs

/-- JS `String.prototype.includes` on character lists: `needle` occurs
contiguously somewhere in `haystack` (the empty needle always occurs). -/
def includesList (needle : List Char) : List Char → Bool
  | [] => startsWithList [] needle
  | c :: rest => startsWithList (c :: rest) needle || includesList needle rest

/-- JS `haystack.includes(needle)` on strings. -/
def strIncludes (haystack needle : String) : Bool :=
  includesList needle.toList haystack.toList

/-- JS falsiness of the `credits` field (`!credits`): absent, or the number
`0`. -/
def creditsAbsent : Option Nat → Bool
  | none => true
  | some n => n == 0

/-- The `SearchOption` state (lines 47-54, initialised at lines 122-128):
`query` and `credits` are optional, the four set dimensions are arrays. -/
structure SearchOption where
  query : Option String
  grades : List Nat
  days : List String
  times : List Nat
  majors : List String
  credits : Option Nat
deriving DecidableEq, Repr

/-- The per-record schedule used by the day/time predicates (lines 149 and
154): `lecture.schedule ? parseSchedule(lecture.schedule) : []` — the empty
encoding is falsy and yields zero slots without calling the parser. -/
def lectureSchedules (parse : String → List ScheduleSlot) (l : Lecture) :
    List ScheduleSlot :=
  if l.schedule = "" then [] else parse l.schedule

/-- `filteredLectures` (lines 132-158): the six filters in source order —
text query on title or id (case-insensitive, `query` defaulted to `""`),
grade set, major set, credit prefix (skipped when `credits` is falsy), day
set over parsed slots, time set over parsed slot ranges.  `parse` is the
external `parseSchedule` dependency. -/
def filteredLectures (parse : String → List ScheduleSlot)
    (lectures : List Lecture) (o : SearchOption) : List Lecture :=
  let lowercaseQuery := toLowerStr (o.query.getD "")
  (((((lectures.filter (fun lecture =>
      strIncludes (toLowerStr lecture.title) lowercaseQuery ||
        strIncludes (toLowerStr lecture.id) lowercaseQuery)).filter
    (fun lecture => o.grades.isEmpty || o.grades.contains lecture.grade)).filter
    (fun lecture => o.majors.isEmpty || o.majors.contains lecture.major)).filter
    (fun lecture => creditsAbsent o.credits ||
      lecture.credits.startsWith (toString (o.credits.getD 0)))).filter
    (fun lecture => o.days.isEmpty ||
      (lectureSchedules parse lecture).any (fun s => o.days.contains s.day))).filter
    (fun lecture => o.times.isEmpty ||
      (lectureSchedules parse lecture).any
        (fun s => s.range.any (fun time => o.times.contains time)))

/-! ## Debounce (`debounce`, lines 444-451, instantiated at 300 ms at
lines 168-175)

`debounce` keeps one shared `timeout` handle; each call clears the pending
handle and arms a new one `wait` ms ahead.  A timed call sequence is a list
of `(time, payload)` pairs in arrival order; a call's timer fires (commits)
exactly when no later call arrives strictly within `wait` ms of it. -/

/-- The calls of a timed sequence whose timers fire, for a debounce of
`wait` ms: a call is cancelled by the next call iff that next call arrives
strictly before the pending timer expires. -/
def commits {α : Type} (wait : Nat) : List (Nat × α) → List (Nat × α)
  | [] => []
  | [c] => [c]
  | c1 :: c2 :: rest =>
    if c2.1 < c1.1 + wait then commits wait (c2 :: rest)
    else c1 :: commits wait (c2 :: rest)

/-- The whole call sequence falls inside one quiet period: every call after
the first arrives strictly within `wait` ms of its predecessor. -/
def withinBurst {α : Type} (wait : Nat) : List (Nat × α) → Bool
  | [] => true
  | [_] => true
  | c1 :: c2 :: rest => decide (c2.1 < c1.1 + wait) && withinBurst wait (c2 :: rest)

/-- The field written by one debounced `setSearchOptions` commit
(line 171: `{ ...prev, [field]: value }`), one constructor per
`SearchOption` field. -/
inductive FieldUpdate where
  | setQuery : Option String → FieldUpdate
  | setGrades : List Nat → FieldUpdate
  | setDays : List String → FieldUpdate
  | setTimes : List Nat → FieldUpdate
  | setMajors : List String → FieldUpdate
  | setCredits : Option Nat → FieldUpdate
deriving DecidableEq, Repr

/-- The `keyof SearchOption` names. -/
inductive FieldName where
  | query | grades | days | times | majors | credits
deriving DecidableEq, Repr

/-- The field an update writes. -/
def fieldOf : FieldUpdate → FieldName
  | FieldUpdate.setQuery _ => FieldName.query
  | FieldUpdate.setGrades _ => FieldName.grades
  | FieldUpdate.setDays _ => FieldName.days
  | FieldUpdate.setTimes _ => FieldName.times
  | FieldUpdate.setMajors _ => FieldName.majors
  | FieldUpdate.setCredits _ => FieldName.credits

/-- One committed update applied to the options state:
`{ ...prev, [field]: value }`. -/
def applyUpdate (o : SearchOption) : FieldUpdate → SearchOption
  | FieldUpdate.setQuery v => { o with query := v }
  | FieldUpdate.setGrades v => { o with grades := v }
  | FieldUpdate.setDays v => { o with days := v }
  | FieldUpdate.setTimes v => { o with times := v }
  | FieldUpdate.setMajors v => { o with majors := v }
  | FieldUpdate.setCredits v => { o with credits := v }

/-- The options state after the commits of a timed call sequence fire in
order. -/
def applyCommits (o : SearchOption) (cs : List (Nat × FieldUpdate)) :
    SearchOption :=
  cs.foldl (fun acc c => applyUpdate acc c.2) o

/-! ## Schedule exporter (`addSchedule`, lines 178-196) -/

/-- A slot tagged with its owning record, the shape pushed to the table
store: `{ ...schedule, lecture }` (lines 183-186). -/
structure ExportSlot where
  day : String
  range : List Nat
  lecture : Lecture
deriving DecidableEq, Repr

/-- The slots exported for a record: `parseSchedule(lecture.schedule)`
(line 183) — no empty-string guard on this path. -/
def exportSlots (parse : String → List ScheduleSlot) (l : Lecture) :
    List ExportSlot :=
  (parse l.schedule).map (fun s => ⟨s.day, s.range, l⟩)

/-- The external schedules map, as the ordered key → slot-list object the
store holds. -/
def lookupTable (m : List (String × List ExportSlot)) (k : String) :
    Option (List ExportSlot) :=
  (m.find? (fun e => e.1 == k)).map (fun e => e.2)

/-- JS object update `{ ...prev, [k]: v }`: the first entry for `k` is
overwritten in place, a fresh key is appended. -/
def setTable (m : List (String × List ExportSlot)) (k : String)
    (v : List ExportSlot) : List (String × List ExportSlot) :=
  match m with
  | [] => [(k, v)]
  | (k', v') :: rest => if k' = k then (k, v) :: rest else (k', v') :: setTable rest k v

/-- `addSchedule` (lines 178-196): spread the existing list for `tableId`
(`[...prev[tableId], ...schedules]`, line 190) and append the record's
slots.  When `tableId` has no entry, `prev[tableId]` is `undefined` and the
spread throws a `TypeError`; the embedding returns `none` for that run-time
failure. -/
def addSchedule (parse : String → List ScheduleSlot)
    (m : List (String × List ExportSlot)) (tableId : String) (l : Lecture) :
    Option (List (String × List ExportSlot)) :=
  match lookupTable m tableId with
  | none => none
  | some existing => some (setTable m tableId (existing ++ exportSlots parse l))

/-! ## Concrete data for witnesses -/

/-- Concrete partition A for witnesses: two records, one id shared with B. -/
def partA : List Lecture :=
  [⟨"CS101", "Intro to Systems (old)", 1, "3", "CS", "월01-02"⟩,
   ⟨"MA200", "Calculus", 2, "3", "MA", ""⟩]

/-- Concrete partition B for witnesses: overwrites `CS101`. -/
def partB : List Lecture :=
  [⟨"CS101", "Intro to Systems", 1, "3", "CS", "월01-02"⟩]

/-- A filtered view of size 250 for the pagination claims. -/
def view250 : List Lecture :=
  List.replicate 250 ⟨"CS101", "Intro to Systems", 1, "3", "CS", "월01-02"⟩

/-- A concrete stand-in for the external `parseSchedule`, for witnesses. -/
def parseW : String → List ScheduleSlot :=
  fun _ => [⟨"월", [1, 2]⟩]

/-- The initial options state (lines 122-128). -/
def optInit : SearchOption :=
  ⟨some "", [], [], [], [], none⟩

/-- Criteria with only the day dimension active, for witnesses. -/
def optDays : SearchOption :=
  ⟨some "", [], ["월"], [], [], none⟩

/-- The record of `partA` that carries a schedule encoding. -/
def lecCS : Lecture :=
  ⟨"CS101", "Intro to Systems (old)", 1, "3", "CS", "월01-02"⟩

/-- A concrete burst of three debounced calls, each within 300 ms of the
previous one. -/
def callsW : List (Nat × FieldUpdate) :=
  [(0, FieldUpdate.setQuery (some "a")), (100, FieldUpdate.setQuery (some "ab")),
   (350, FieldUpdate.setQuery (some "abc"))]

/-- A concrete external schedules map with two initialised tables. -/
def tablesW : List (String × List ExportSlot) :=
  [("table1", []), ("table2", [])]

end SearchDialog

namespace SearchDialog

/-! ## Theorems: loader (C1, C8) helper lemmas -/

/-- Ids of `upsert acc l`: unchanged when `l.id` is already a key, otherwise
the new id is appended. -/
theorem upsert_map_id (acc : List Lecture) (l : Lecture) :
    (upsert acc l).map (fun x => x.id) =
      if l.id ∈ acc.map (fun x => x.id) then acc.map (fun x => x.id)
      else acc.map (fun x => x.id) ++ [l.id] := by
  induction acc with
  | nil => simp [upsert]
  | cons x xs ih =>
    by_cases hx : x.id = l.id
    · simp [upsert, hx]
    · have hne : l.id ≠ x.id := fun h => hx h.symm
      simp only [upsert, if_neg hx, List.map_cons, List.mem_cons, hne, false_or, ih]
      by_cases hmem : l.id ∈ xs.map (fun x => x.id) <;> simp [hmem]

/-- `upsert` preserves the no-duplicate-ids invariant. -/
theorem upsert_nodup (acc : List Lecture) (l : Lecture)
    (h : (acc.map (fun x => x.id)).Nodup) :
    ((upsert acc l).map (fun x => x.id)).Nodup := by
  rw [upsert_map_id]
  by_cases hmem : l.id ∈ acc.map (fun x => x.id)
  · simpa [hmem] using h
  · simpa [hmem, List.nodup_append] using h

/-- Membership in the ids of a fold of `upsert`s. -/
theorem mem_foldl_upsert_map_id (ls : List Lecture) (acc : List Lecture) (s : String) :
    s ∈ (ls.foldl upsert acc).map (fun x => x.id) ↔
      s ∈ acc.map (fun x => x.id) ∨ s ∈ ls.map (fun x => x.id) := by
  induction ls generalizing acc with
  | nil => simp
  | cons l ls ih =>
    rw [List.foldl_cons, ih, upsert_map_id]
    by_cases hmem : l.id ∈ acc.map (fun x => x.id)
    · simp only [if_pos hmem, List.map_cons, List.mem_cons]
      constructor
      · rintro (h | h)
        · exact Or.inl h
        · exact Or.inr (Or.inr h)
      · rintro (h | rfl | h)
        · exact Or.inl h
        · exact Or.inl hmem
        · exact Or.inr h
    · simp only [if_neg hmem, List.map_cons, List.mem_cons, List.mem_append,
        List.mem_singleton]
      tauto

/-- A fold of `upsert`s from a duplicate-free accumulator has
duplicate-free ids. -/
theorem foldl_upsert_nodup (ls : List Lecture) (acc : List Lecture)
    (h : (acc.map (fun x => x.id)).Nodup) :
    ((ls.foldl upsert acc).map (fun x => x.id)).Nodup := by
  induction ls generalizing acc with
  | nil => simpa using h
  | cons l ls ih => exact ih _ (upsert_nodup _ _ h)

/-- Looking up the id just upserted finds the new record. -/
theorem find?_upsert_self (acc : List Lecture) (l : Lecture) :
    (upsert acc l).find? (fun x => x.id == l.id) = some l := by
  induction acc with
  | nil => simp [upsert]
  | cons x xs ih =>
    by_cases hx : x.id = l.id
    · simp [upsert, hx]
    · simp [upsert, hx, List.find?_cons, ih]

/-- Looking up a different id is unchanged by an `upsert`. -/
theorem find?_upsert_other (acc : List Lecture) (l : Lecture) (s : String)
    (h : s ≠ l.id) :
    (upsert acc l).find? (fun x => x.id == s) = acc.find? (fun x => x.id == s) := by
  have hls : ¬l.id = s := fun hh => h hh.symm
  induction acc with
  | nil => simp [upsert, hls]
  | cons x xs ih =>
    by_cases hx : x.id = l.id
    · have hxs : ¬x.id = s := by rw [hx]; exact hls
      simp [upsert, hx, List.find?_cons, hxs, hls]
    · by_cases hs : x.id = s
      · simp [upsert, hx, List.find?_cons, hs, h]
      · simp [upsert, hx, List.find?_cons, hs, ih]

/-- Lookup in a fold of `upsert`s: the last insertion of an id wins, and ids
never inserted fall through to the accumulator. -/
theorem find?_foldl_upsert (ls : List Lecture) (acc : List Lecture) (s : String) :
    (ls.foldl upsert acc).find? (fun x => x.id == s) =
      match ls.reverse.find? (fun x => x.id == s) with
      | some l => some l
      | none => acc.find? (fun x => x.id == s) := by
  induction ls generalizing acc with
  | nil => simp
  | cons l ls ih =>
    rw [List.foldl_cons, ih, List.reverse_cons, List.find?_append]
    cases hrev : ls.reverse.find? (fun x => x.id == s) with
    | some x => simp
    | none =>
      by_cases hl : l.id = s
      · subst hl
        simp [find?_upsert_self, List.find?_cons]
      · simp [find?_upsert_other acc l s (fun hh => hl hh.symm), List.find?_cons, hl]

/-- If some record in `b` carries id `s`, the last-occurrence lookup over
`a ++ b` lands on a record of `b`. -/
theorem find?_reverse_append_of_mem (a b : List Lecture) (s : String)
    (h : s ∈ b.map (fun x => x.id)) :
    ∃ l, (a ++ b).reverse.find? (fun x => x.id == s) = some l ∧ l ∈ b ∧ l.id = s := by
  rw [List.reverse_append, List.find?_append]
  have hex : ∃ x ∈ b.reverse, (fun x => x.id == s) x = true := by
    obtain ⟨x, hx, hid⟩ := List.mem_map.mp h
    exact ⟨x, List.mem_reverse.mpr hx, by simp [hid]⟩
  obtain ⟨l, hl⟩ := Option.isSome_iff_exists.mp (List.find?_isSome.mpr hex)
  refine ⟨l, by simp [hl], List.mem_reverse.mp (List.mem_of_find?_eq_some hl), ?_⟩
  simpa using List.find?_some hl

/-- C1 counting part: the merged catalog has pairwise-distinct ids and its
size is the number of distinct ids in the concatenation. -/
theorem mergeLectures_nodup (a b : List Lecture) :
    ((mergeLectures a b).map (fun x => x.id)).Nodup :=
  foldl_upsert_nodup _ _ (by simp)

/-- C1 membership part: the merged catalog's ids are exactly the ids of the
concatenation. -/
theorem mem_mergeLectures_map_id (a b : List Lecture) (s : String) :
    s ∈ (mergeLectures a b).map (fun x => x.id) ↔
      s ∈ (a ++ b).map (fun x => x.id) := by
  rw [mergeLectures, mem_foldl_upsert_map_id]
  simp

/-- C1 size part: merged size = number of distinct ids in `A ++ B`. -/
theorem mergeLectures_length (a b : List Lecture) :
    (mergeLectures a b).length = (((a ++ b).map (fun x => x.id)).dedup).length := by
  have hnd := mergeLectures_nodup a b
  have hfin : ((mergeLectures a b).map (fun x => x.id)).toFinset =
      ((a ++ b).map (fun x => x.id)).toFinset := by
    ext s
    simp only [List.mem_toFinset]
    exact mem_mergeLectures_map_id a b s
  calc (mergeLectures a b).length
      = ((mergeLectures a b).map (fun x => x.id)).length := (List.length_map _ _).symm
    _ = ((mergeLectures a b).map (fun x => x.id)).toFinset.card :=
        (List.toFinset_card_of_nodup hnd).symm
    _ = ((a ++ b).map (fun x => x.id)).toFinset.card := by rw [hfin]
    _ = (((a ++ b).map (fun x => x.id)).dedup).length := List.card_toFinset _

/-- C1: the merged catalog has exactly one record per distinct identifier
(pairwise-distinct ids, and its size is the count of distinct ids in
partition A ++ partition B), and every id occurring in both partitions keeps
a record of partition B. -/
theorem merged_catalog_one_per_id (a b : List Lecture) :
    ((mergeLectures a b).map (fun x => x.id)).Nodup ∧
    (mergeLectures a b).length = (((a ++ b).map (fun x => x.id)).dedup).length ∧
    (∀ s : String, s ∈ a.map (fun x => x.id) → s ∈ b.map (fun x => x.id) →
      ∃ l, l ∈ b ∧ l.id = s ∧
        (mergeLectures a b).find? (fun x => x.id == s) = some l) := by
  refine ⟨mergeLectures_nodup a b, mergeLectures_length a b, ?_⟩
  intro s _ hsb
  obtain ⟨l, hfind, hlb, hlid⟩ := find?_reverse_append_of_mem a b s hsb
  refine ⟨l, hlb, hlid, ?_⟩
  rw [mergeLectures, find?_foldl_upsert, hfind]

/-- C1 witness: on the concrete partitions the duplicate id `CS101` keeps
partition B's record. -/
theorem merged_catalog_one_per_id_witness :
    ∃ l, l ∈ partB ∧ l.id = "CS101" ∧
      (mergeLectures partA partB).find? (fun x => x.id == "CS101") = some l :=
  (merged_catalog_one_per_id partA partB).2.2 "CS101" (by decide) (by decide)

/-- C8: if either partition fetch fails, `fetchAllLectures` returns the
empty catalog — no partial result from the succeeding partition. -/
theorem fetchAllLectures_failure_empty (ra rb : Except String (List Lecture))
    (h : ra.isOk = false ∨ rb.isOk = false) :
    fetchAllLectures ra rb = [] := by
  cases ra <;> cases rb <;> simp_all [fetchAllLectures, Except.isOk, Except.toBool]

/-- C8 witness: one failing fetch with the other succeeding yields `[]`. -/
theorem fetchAllLectures_failure_empty_witness :
    fetchAllLectures (Except.error "network") (Except.ok partB) = [] :=
  fetchAllLectures_failure_empty _ _ (Or.inl rfl)

/-- C5 counterexample: with a filtered view of 250 records the last page is
3, but the window at page 3 is `slice(0, 300)` — all 250 records, not 50. -/
theorem window_page3_not_fifty :
    lastPage view250 = 3 ∧ (visibleLectures view250 3).length = 250 ∧
      (visibleLectures view250 3).length ≠ 50 := by
  refine ⟨?_, ?_, ?_⟩ <;>
    simp [lastPage, visibleLectures, view250, PAGE_SIZE, List.length_take,
      List.length_replicate]

/-- C5 (amended): the last page is `⌈n / 100⌉` (characterised by the two
inequalities below) and the window at page `p` holds the first
`min (p * 100) n` elements; for `n = 250`: last page 3, window at page 1 has
100 elements, window at page 3 has all 250 elements (not 50). -/
theorem pagination_window_size (l : List Lecture) (p : Nat) :
    l.length ≤ lastPage l * PAGE_SIZE ∧
    lastPage l * PAGE_SIZE < l.length + PAGE_SIZE ∧
    (visibleLectures l p).length = min (p * PAGE_SIZE) l.length ∧
    lastPage view250 = 3 ∧
    (visibleLectures view250 1).length = 100 ∧
    (visibleLectures view250 3).length = 250 := by
  refine ⟨?_, ?_, ?_, ?_, ?_, ?_⟩
  · simp only [lastPage, PAGE_SIZE]; omega
  · simp only [lastPage, PAGE_SIZE]; omega
  · simp [visibleLectures, List.length_take]
  · simp [lastPage, view250, PAGE_SIZE, List.length_replicate]
  · simp [visibleLectures, view250, PAGE_SIZE, List.length_take, List.length_replicate]
  · simp [visibleLectures, view250, PAGE_SIZE, List.length_take, List.length_replicate]

/-- C6: one `advance` step moves the page to `min (lastPage) (page + 1)`;
at `page = lastPage` it leaves the page unchanged. -/
theorem advance_step (lp p : Nat) :
    advance lp p = min lp (p + 1) ∧ (p = lp → advance lp p = p) := by
  refine ⟨rfl, fun h => ?_⟩
  subst h
  simp [advance, Nat.min_eq_left (Nat.le_succ p)]

/-- C6 witness: at `page = lastPage = 3` the step keeps page 3. -/
theorem advance_step_witness : advance 3 3 = 3 :=
  (advance_step 3 3).2 rfl

/-- `pageStep` keeps the page ≥ 1 on safe operations. -/
theorem pageStep_ge_one (p : Nat) (op : PageOp)
    (hop : pageOpSafe op = true) : 1 ≤ pageStep p op := by
  cases op with
  | commitChange => exact le_refl 1
  | contextReset => exact le_refl 1
  | advancePage lp =>
    simp only [pageOpSafe, decide_eq_true_eq] at hop
    exact Nat.le_min.mpr ⟨hop, Nat.succ_le_succ (Nat.zero_le p)⟩

/-- Safe operations keep any page ≥ 1 under the fold. -/
theorem foldl_pageStep_ge_one (ops : List PageOp) (p : Nat) (hp : 1 ≤ p)
    (hops : ops.all pageOpSafe = true) : 1 ≤ ops.foldl pageStep p := by
  induction ops generalizing p with
  | nil => simpa using hp
  | cons op ops ih =>
    simp only [List.all_cons, Bool.and_eq_true] at hops
    exact ih _ (pageStep_ge_one p op hops.1) hops.2

/-- C7 counterexample: with an empty filtered view `lastPage = 0`, and a
single `advance` from the initial state sets the page to
`min 0 (1 + 1) = 0`, breaking the page ≥ 1 invariant. -/
theorem page_zero_reachable :
    runPage [PageOp.advancePage (lastPage [])] = 0 ∧
      ¬ 1 ≤ runPage [PageOp.advancePage (lastPage [])] := by
  constructor <;> decide

/-- C7 (amended): starting from `useState(1)`, every sequence of commits,
context resets and `advance` steps whose captured `lastPage` is ≥ 1 (i.e.
the filtered view is non-empty) keeps the page ≥ 1; an `advance` captured
with `lastPage = 0` (empty view) can set the page to 0. -/
theorem runPage_ge_one (ops : List PageOp) (hops : ops.all pageOpSafe = true) :
    1 ≤ runPage ops :=
  foldl_pageStep_ge_one ops 1 (le_refl 1) hops

/-- C7 witness: a concrete safe run stays at page ≥ 1. -/
theorem runPage_ge_one_witness :
    1 ≤ runPage [PageOp.advancePage 3, PageOp.commitChange, PageOp.advancePage 2] :=
  runPage_ge_one _ (by decide)

/-! ## Filter engine theorems (C2, C3) -/

/-- A haystack always starts with the empty needle. -/
theorem startsWithList_nil (l : List Char) : startsWithList l [] = true := by
  cases l <;> rfl

/-- JS `includes`: every string contains the empty string. -/
theorem strIncludes_empty (s : String) : strIncludes s "" = true := by
  rw [strIncludes]
  have hempty : ("" : String).toList = [] := rfl
  rw [hempty]
  generalize s.toList = l
  cases l <;> simp [includesList, startsWithList_nil]

/-- Lowercasing the empty string yields the empty string. -/
theorem toLowerStr_empty : toLowerStr "" = "" := rfl

/-- C2: with every filter dimension empty or absent (empty or absent query,
empty grade/day/time/major sets, no credit filter) the filter chain returns
the catalog itself, element for element and in order. -/
theorem filteredLectures_identity (parse : String → List ScheduleSlot)
    (lectures : List Lecture) (o : SearchOption)
    (hq : o.query = none ∨ o.query = some "") (hg : o.grades = [])
    (hd : o.days = []) (ht : o.times = []) (hm : o.majors = [])
    (hc : o.credits = none) :
    filteredLectures parse lectures o = lectures := by
  have hquery : toLowerStr (o.query.getD "") = "" := by
    rcases hq with h | h <;> rw [h] <;> rfl
  simp [filteredLectures, hquery, hg, hd, ht, hm, hc, creditsAbsent,
    strIncludes_empty]

/-- C2 witness: the initial (all-empty) criteria leave the concrete catalog
unchanged. -/
theorem filteredLectures_identity_witness :
    filteredLectures parseW partA optInit = partA :=
  filteredLectures_identity parseW partA optInit (Or.inr rfl) rfl rfl rfl rfl rfl

/-- C3: when the day set is non-empty, every record of the filtered view has
a parsed slot whose day is in the set; in particular its raw schedule
encoding is non-empty (an empty encoding yields zero slots and fails the
predicate). -/
theorem day_filter_sound (parse : String → List ScheduleSlot)
    (lectures : List Lecture) (o : SearchOption) (l : Lecture)
    (hd : o.days ≠ []) (hmem : l ∈ filteredLectures parse lectures o) :
    (lectureSchedules parse l).any (fun s => o.days.contains s.day) = true ∧
      l.schedule ≠ "" := by
  have hdays : o.days.isEmpty = false := by
    cases h : o.days with
    | nil => exact absurd h hd
    | cons a t => rfl
  simp only [filteredLectures] at hmem
  have hmem5 := List.mem_of_mem_filter hmem
  have hpred := List.of_mem_filter hmem5
  simp only [hdays, Bool.false_or] at hpred
  refine ⟨hpred, fun hsched => ?_⟩
  rw [lectureSchedules, if_pos hsched] at hpred
  simp at hpred

/-- C3 witness: with day set `{월}`, the record with schedule `월01-02`
passes and the predicate evaluates on its parsed slots. -/
theorem day_filter_sound_witness :
    (lectureSchedules parseW lecCS).any (fun s => optDays.days.contains s.day) = true ∧
      lecCS.schedule ≠ "" :=
  day_filter_sound parseW partA optDays lecCS (by decide) (by decide)

/-! ## Debounce theorems (C4, C9) -/

/-- C4: for any non-empty burst of debounced calls in which each call
arrives strictly within 300 ms of the previous one (`withinBurst`), exactly
one commit fires, and it carries the payload of the last call; all earlier
pending commits are cancelled. -/
theorem debounce_last_call_wins {α : Type} (calls : List (Nat × α))
    (c : Nat × α) (hne : calls ≠ [])
    (hburst : withinBurst 300 calls = true)
    (hlast : calls.getLast? = some c) :
    commits 300 calls = [c] := by
  induction calls with
  | nil => exact absurd rfl hne
  | cons c1 rest ih =>
    cases rest with
    | nil =>
      simp only [List.getLast?_singleton, Option.some_inj] at hlast
      rw [hlast]
      rfl
    | cons c2 rest2 =>
      rw [withinBurst, Bool.and_eq_true, decide_eq_true_eq] at hburst
      rw [commits, if_pos hburst.1]
      exact ih (by simp) hburst.2
        (by rw [← List.getLast?_cons_cons]; exact hlast)

/-- C4 witness: a concrete three-call burst commits once, with the last
call's value. -/
theorem debounce_last_call_wins_witness :
    commits 300 callsW = [(350, FieldUpdate.setQuery (some "abc"))] :=
  debounce_last_call_wins callsW (350, FieldUpdate.setQuery (some "abc"))
    (by decide) (by decide) (by decide)

/-- C9 (implicit): the debounce timer is shared across fields — a second
call within 300 ms for a different field cancels the first field's pending
commit: only the second update is ever committed and applied, and no commit
writes the first field. -/
theorem debounce_shared_across_fields (t1 t2 : Nat) (u1 u2 : FieldUpdate)
    (o : SearchOption) (hlt : t2 < t1 + 300) (hf : fieldOf u1 ≠ fieldOf u2) :
    commits 300 [(t1, u1), (t2, u2)] = [(t2, u2)] ∧
    applyCommits o (commits 300 [(t1, u1), (t2, u2)]) = applyUpdate o u2 ∧
    ∀ c ∈ commits 300 [(t1, u1), (t2, u2)], fieldOf c.2 ≠ fieldOf u1 := by
  have hc : commits 300 [(t1, u1), (t2, u2)] = [(t2, u2)] := by
    simp [commits, hlt]
  refine ⟨hc, by rw [hc]; rfl, ?_⟩
  rw [hc]
  intro c hcmem
  rw [List.mem_singleton] at hcmem
  rw [hcmem]
  exact Ne.symm hf

/-- C9 witness: a query call followed 100 ms later by a grades call commits
only the grades update. -/
theorem debounce_shared_across_fields_witness :
    commits 300 [(0, FieldUpdate.setQuery (some "x")), (100, FieldUpdate.setGrades [1])] =
        [(100, FieldUpdate.setGrades [1])] ∧
    applyCommits optInit
        (commits 300 [(0, FieldUpdate.setQuery (some "x")), (100, FieldUpdate.setGrades [1])]) =
      applyUpdate optInit (FieldUpdate.setGrades [1]) ∧
    ∀ c ∈ commits 300 [(0, FieldUpdate.setQuery (some "x")), (100, FieldUpdate.setGrades [1])],
      fieldOf c.2 ≠ fieldOf (FieldUpdate.setQuery (some "x")) :=
  debounce_shared_across_fields 0 100 (FieldUpdate.setQuery (some "x"))
    (FieldUpdate.setGrades [1]) optInit (by decide) (by decide)

/-! ## Exporter theorems (C10) -/

/-- Looking up the key just written finds the new list. -/
theorem lookupTable_setTable_self (m : List (String × List ExportSlot))
    (k : String) (v : List ExportSlot) :
    lookupTable (setTable m k v) k = some v := by
  induction m with
  | nil => simp [setTable, lookupTable]
  | cons e rest ih =>
    by_cases hk : e.1 = k
    · simp [setTable, hk, lookupTable]
    · simp [setTable, hk, lookupTable, List.find?_cons] at ih ⊢
      simpa [hk] using ih

/-- Writing one key leaves every other key's list unchanged. -/
theorem lookupTable_setTable_other (m : List (String × List ExportSlot))
    (k : String) (v : List ExportSlot) (k2 : String) (h : k2 ≠ k) :
    lookupTable (setTable m k v) k2 = lookupTable m k2 := by
  have hk2 : ¬k = k2 := fun hh => h hh.symm
  induction m with
  | nil => simp [setTable, lookupTable, hk2]
  | cons e rest ih =>
    by_cases hk : e.1 = k
    · simp [setTable, hk, lookupTable, List.find?_cons, hk2]
    · by_cases hk2e : e.1 = k2
      · simp [setTable, hk, lookupTable, List.find?_cons, hk2e, h]
      · simp [setTable, hk, lookupTable, List.find?_cons, hk2e] at ih ⊢
        exact ih

/-- C10 (implicit): when `tableId` already has a slot list, `addSchedule`
appends the record's parsed slots to it and leaves every other table
unchanged; when `tableId` has no entry, the spread of `prev[tableId]`
(`undefined`) fails at run time — the operation yields no new map instead of
auto-initialising the entry. -/
theorem addSchedule_append_or_fail (parse : String → List ScheduleSlot)
    (m : List (String × List ExportSlot)) (tableId : String) (l : Lecture) :
    (∀ existing, lookupTable m tableId = some existing →
      ∃ m', addSchedule parse m tableId l = some m' ∧
        lookupTable m' tableId = some (existing ++ exportSlots parse l) ∧
        ∀ k, k ≠ tableId → lookupTable m' k = lookupTable m k) ∧
    (lookupTable m tableId = none → addSchedule parse m tableId l = none) := by
  constructor
  · intro existing hex
    refine ⟨setTable m tableId (existing ++ exportSlots parse l), ?_, ?_, ?_⟩
    · rw [addSchedule, hex]
    · exact lookupTable_setTable_self m tableId _
    · intro k hk
      exact lookupTable_setTable_other m tableId _ k hk
  · intro hnone
    rw [addSchedule, hnone]

/-- C10 witness: exporting into the initialised `table1` of the concrete
store succeeds and appends the parsed slots. -/
theorem addSchedule_append_or_fail_witness :
    ∃ m', addSchedule parseW tablesW "table1" lecCS = some m' ∧
      lookupTable m' "table1" = some ([] ++ exportSlots parseW lecCS) ∧
      ∀ k, k ≠ "table1" → lookupTable m' k = lookupTable tablesW k :=
  (addSchedule_append_or_fail parseW tablesW "table1" lecCS).1 [] (by decide)

end SearchDialog
